import Mathlib

/- Shallow embedding of the VoronUsers README ingestion script of the
   voron-mod-hub repository (the cached variant of scripts/parseReadme.ts):
   markdown-table parsing, compatibility normalization, preview-image
   resolution with a persisted cache, local materialization of gif previews,
   snapshot assembly and cleanup of unused local image files.

   JavaScript strings are modelled as Lean `String`; the handful of string
   primitives the script uses (String.prototype.trim, split, startsWith,
   endsWith, toLowerCase and the regexes) are re-implemented below on
   `List Char` with the exact JavaScript semantics needed (split keeps empty
   segments, trim strips ASCII whitespace, regex scanning is leftmost-match
   with the concrete backtracking behaviour of the patterns in the script).
   Asynchronous I/O (fetch, sharp, the filesystem) is modelled by an explicit
   environment of pure functions plus explicit state threading; a rejected
   promise is modelled as `Except.error`. -/

namespace VoronHub

/-- Boolean test that the first list is a prefix of the second. -/
def prefOf : List Char → List Char → Bool
  | [], _ => true
  | _ :: _, [] => false
  | p :: ps, c :: cs => p == c && prefOf ps cs

/-- Models JavaScript String.prototype.startsWith. -/
def strStartsWith (s pre : String) : Bool := prefOf pre.data s.data

/-- Models JavaScript String.prototype.endsWith. -/
def strEndsWith (s suf : String) : Bool := prefOf suf.data.reverse s.data.reverse

/-- Strip leading and trailing whitespace from a character list. -/
def trimChars (l : List Char) : List Char :=
  ((l.dropWhile Char.isWhitespace).reverse.dropWhile Char.isWhitespace).reverse

/-- Models JavaScript String.prototype.trim (on the ASCII whitespace that
    occurs in the data). -/
def jsTrim (s : String) : String := String.mk (trimChars s.data)

/-- Split a character list at every character satisfying `p`, keeping empty
    segments, as JavaScript String.prototype.split with a single-character
    class regex does. -/
def splitCharsAux (p : Char → Bool) : List Char → List Char → List (List Char)
  | [], acc => [acc.reverse]
  | c :: cs, acc =>
      if p c then acc.reverse :: splitCharsAux p cs []
      else splitCharsAux p cs (c :: acc)

def splitChars (p : Char → Bool) (l : List Char) : List (List Char) :=
  splitCharsAux p l []

/-- Models JavaScript `s.split(regex)` for a single-character-class regex. -/
def jsSplit (s : String) (p : Char → Bool) : List String :=
  (splitChars p s.data).map String.mk

/-- ASCII lowercasing of one character, as the /i regex flag and
    String.prototype.toLowerCase act on the ASCII data at hand. -/
def asciiLower (c : Char) : Char :=
  if 'A' ≤ c ∧ c ≤ 'Z' then Char.ofNat (c.toNat + 32) else c

/-- Models JavaScript String.prototype.toLowerCase on ASCII data. -/
def strLower (s : String) : String := String.mk (s.data.map asciiLower)

/-- Case-insensitive startsWith, modelling an /i-flagged anchored regex. -/
def ciStartsWith (s pre : String) : Bool :=
  prefOf (pre.data.map asciiLower) (s.data.map asciiLower)

/-- Models `markdown.split(/\r?\n/)`: a separator is "\r\n" or "\n"; a lone
    carriage return is kept in the line. -/
def splitLinesAux : List Char → List Char → List String
  | [], acc => [String.mk acc.reverse]
  | '\r' :: '\n' :: rest, acc => String.mk acc.reverse :: splitLinesAux rest []
  | '\n' :: rest, acc => String.mk acc.reverse :: splitLinesAux rest []
  | c :: rest, acc => splitLinesAux rest (c :: acc)

def splitLines (s : String) : List String := splitLinesAux s.data []

/- ### Compatibility normalizer (buildCompatibility) -/

/-- The three compatibility cell values "✓", "✗" and "?" of the
    CompatibilityFlag union type. -/
inductive Flag
  | check
  | cross
  | unknown
deriving DecidableEq

/-- The Compatibility record over the five printer families. -/
structure Compatibility where
  v0 : Flag
  v0_1 : Flag
  v1_8 : Flag
  v2_4 : Flag
  trident : Flag
deriving DecidableEq

inductive PrinterKey
  | v0
  | v0_1
  | v1_8
  | v2_4
  | trident
deriving DecidableEq

/-- The PRINTER_SYNONYMS table of the script. -/
def synonymsOf : PrinterKey → List String
  | .v0 => ["V0", "V0.0", "V0.1", "V0.2", "V0.2r1"]
  | .v0_1 => ["V0.1"]
  | .v1_8 => ["V1.8", "V1"]
  | .v2_4 => ["V2.4", "V2.4r2"]
  | .trident => ["VT", "Trident", "Voron Trident"]

/-- The Object.entries iteration order of PRINTER_SYNONYMS. -/
def printerKeys : List PrinterKey := [.v0, .v0_1, .v1_8, .v2_4, .trident]

/-- The DEFAULT_COMPATIBILITY constant: every family "✗". -/
def DEFAULT_COMPATIBILITY : Compatibility :=
  ⟨Flag.cross, Flag.cross, Flag.cross, Flag.cross, Flag.cross⟩

def getFlag (c : Compatibility) : PrinterKey → Flag
  | .v0 => c.v0
  | .v0_1 => c.v0_1
  | .v1_8 => c.v1_8
  | .v2_4 => c.v2_4
  | .trident => c.trident

def setFlag (c : Compatibility) : PrinterKey → Flag → Compatibility
  | .v0, f => { c with v0 := f }
  | .v0_1, f => { c with v0_1 := f }
  | .v1_8, f => { c with v1_8 := f }
  | .v2_4, f => { c with v2_4 := f }
  | .trident, f => { c with trident := f }

/-- The token list buildCompatibility computes: split the cell on commas and
    slashes, trim each token, drop empty tokens. -/
def tokenize (cell : String) : List String :=
  ((jsSplit cell (fun c => c == ',' || c == '/')).map jsTrim).filter (fun t => t ≠ "")

/-- buildCompatibility of the script: start from DEFAULT_COMPATIBILITY and
    mark a family "✓" when some parsed token is contained in its synonym
    list (Array.prototype.includes, exact string comparison). -/
def buildCompatibility (cell : String) : Compatibility :=
  let normalized := tokenize cell
  printerKeys.foldl
    (fun comp key =>
      if normalized.any (fun tok => (synonymsOf key).contains tok) then
        setFlag comp key Flag.check
      else comp)
    DEFAULT_COMPATIBILITY

/-- Unfolded record form of buildCompatibility. -/
theorem buildCompatibility_eq (cell : String) :
    buildCompatibility cell =
      ⟨if (tokenize cell).any (fun tok => (synonymsOf .v0).contains tok) then .check else .cross,
       if (tokenize cell).any (fun tok => (synonymsOf .v0_1).contains tok) then .check else .cross,
       if (tokenize cell).any (fun tok => (synonymsOf .v1_8).contains tok) then .check else .cross,
       if (tokenize cell).any (fun tok => (synonymsOf .v2_4).contains tok) then .check else .cross,
       if (tokenize cell).any (fun tok => (synonymsOf .trident).contains tok) then .check else .cross⟩ := by
  simp only [buildCompatibility, printerKeys, List.foldl]
  split_ifs <;> simp_all [setFlag, DEFAULT_COMPATIBILITY]

theorem getFlag_buildCompatibility (cell : String) (k : PrinterKey) :
    getFlag (buildCompatibility cell) k =
      if (tokenize cell).any (fun tok => (synonymsOf k).contains tok) then .check else .cross := by
  rw [buildCompatibility_eq]
  cases k <;> rfl

/-- C4: a family flag is "✓" exactly when one of its synonym tokens occurs
    verbatim among the parsed tokens of the cell, and "✗" otherwise; the "?"
    flag is never produced; a bare "V0.1" token marks both the v0 and the
    v0_1 family supported. -/
theorem claimFour_compatibilityFlags (cell : String) :
    (∀ k : PrinterKey,
        (getFlag (buildCompatibility cell) k = Flag.check ↔
          ∃ t ∈ tokenize cell, t ∈ synonymsOf k) ∧
        getFlag (buildCompatibility cell) k ≠ Flag.unknown) ∧
    ("V0.1" ∈ tokenize cell →
      getFlag (buildCompatibility cell) .v0 = Flag.check ∧
      getFlag (buildCompatibility cell) .v0_1 = Flag.check) := by
  have hmain : ∀ k : PrinterKey,
      (getFlag (buildCompatibility cell) k = Flag.check ↔
        ∃ t ∈ tokenize cell, t ∈ synonymsOf k) ∧
      getFlag (buildCompatibility cell) k ≠ Flag.unknown := by
    intro k
    have hiff : ((tokenize cell).any (fun tok => (synonymsOf k).contains tok)) = true ↔
        (∃ t ∈ tokenize cell, t ∈ synonymsOf k) := by
      simp [List.any_eq_true, List.contains, List.elem_iff]
    rw [getFlag_buildCompatibility]
    constructor
    · constructor
      · intro h
        split_ifs at h with hc
        exact hiff.mp hc
      · intro hex
        exact if_pos (hiff.mpr hex)
    · split_ifs <;> simp
  refine ⟨hmain, fun hmem => ?_⟩
  constructor
  · exact ((hmain .v0).1).2 ⟨"V0.1", hmem, by decide⟩
  · exact ((hmain .v0_1).1).2 ⟨"V0.1", hmem, by decide⟩

/-- Witness for C4 at the concrete cell "V0.1, Trident". -/
theorem claimFour_witness :
    getFlag (buildCompatibility "V0.1, Trident") .v0 = Flag.check ∧
    getFlag (buildCompatibility "V0.1, Trident") .v0_1 = Flag.check :=
  (claimFour_compatibilityFlags "V0.1, Trident").2 (by decide)

/- ### Constants of the script -/

/-- Default value of README_URL (the VORON_USERS_README_URL environment
    override is not modelled; every run in scope uses the default). -/
def README_URL : String :=
  "https://raw.githubusercontent.com/VoronDesign/VoronUsers/master/printer_mods/README.md"

def MOD_BASE_URL : String :=
  "https://github.com/VoronDesign/VoronUsers/tree/master/printer_mods"

def MOD_BLOB_BASE_URL : String :=
  "https://github.com/VoronDesign/VoronUsers/blob/master/printer_mods"

def RAW_BASE_URL : String :=
  "https://raw.githubusercontent.com/VoronDesign/VoronUsers/master/printer_mods"

def README_FILENAME : String := "README.md"

def IMAGE_EXTENSIONS : List String :=
  [".png", ".jpg", ".jpeg", ".gif", ".webp", ".bmp", ".svg"]

/- ### Title-cell link extraction (extractLink) -/

/-- Leftmost match of the regex pattern `\[([^\]]+)\]\(([^)]+)\)` used by
    extractLink, returning the two capture groups (link text, link target).
    Because both character classes exclude exactly the closing delimiter,
    the greedy runs cannot backtrack into an alternative match at the same
    start position, so the regex engine behaviour is: at each start position
    in turn, take the maximal run of characters other than "]" (nonempty),
    require "](", take the maximal run of characters other than ")"
    (nonempty), require ")"; on failure advance the start by one. -/
def findLink : List Char → Option (List Char × List Char)
  | [] => none
  | '[' :: rest =>
      let t := rest.takeWhile (fun c => c ≠ ']')
      (match t, rest.drop t.length with
        | _ :: _, ']' :: '(' :: rest2 =>
            let u := rest2.takeWhile (fun c => c ≠ ')')
            (match u, rest2.drop u.length with
              | _ :: _, ')' :: _ => some (t, u)
              | _, _ => findLink rest)
        | _, _ => findLink rest)
  | _ :: rest => findLink rest

/-- Result shape of extractLink. -/
structure LinkParts where
  title : String
  link : String
  sourcePath : Option String
deriving DecidableEq

/-- Models `normalized.replace(/^\.\//, "")`: strip one leading "./". -/
def stripDotSlash (s : String) : String :=
  if strStartsWith s "./" then String.mk (s.data.drop 2) else s

/-- Models the test `/^https?:\/\//i.test(s)`. -/
def isHttpAbs (s : String) : Bool :=
  ciStartsWith s "http://" || ciStartsWith s "https://"

/-- extractLink of the script: pull the first markdown link out of the title
    cell; an absolute http(s) target is external (no sourcePath), any other
    target is joined onto MOD_BASE_URL and kept as sourcePath; a cell with
    no link keeps its whole text as the title and links to MOD_BASE_URL. -/
def extractLink (cell : String) : LinkParts :=
  match findLink cell.data with
  | none => ⟨cell, MOD_BASE_URL, none⟩
  | some (t, u) =>
      let normalized := stripDotSlash (String.mk u)
      if isHttpAbs normalized then
        ⟨jsTrim (String.mk t), normalized, none⟩
      else
        ⟨jsTrim (String.mk t), MOD_BASE_URL ++ "/" ++ normalized, some normalized⟩

/-- C6: characterization of extractLink. When the title cell contains a
    markdown link, the trimmed link text becomes the title, a leading "./"
    is stripped from the target, an absolute http(s) target is used verbatim
    with no sourcePath, and any other target is joined onto the fixed mod
    base URL and retained as sourcePath; when no link pattern is found the
    whole cell text becomes the title, the link falls back to the fixed
    catalog root URL and there is no sourcePath. -/
theorem claimSix_extractLink (cell : String) :
    (findLink cell.data = none →
      extractLink cell = ⟨cell, MOD_BASE_URL, none⟩) ∧
    (∀ t u, findLink cell.data = some (t, u) →
      (isHttpAbs (stripDotSlash (String.mk u)) = true →
        extractLink cell =
          ⟨jsTrim (String.mk t), stripDotSlash (String.mk u), none⟩) ∧
      (isHttpAbs (stripDotSlash (String.mk u)) = false →
        extractLink cell =
          ⟨jsTrim (String.mk t), MOD_BASE_URL ++ "/" ++ stripDotSlash (String.mk u),
            some (stripDotSlash (String.mk u))⟩)) := by
  constructor
  · intro h
    simp [extractLink, h]
  · intro t u h
    constructor
    · intro habs
      simp [extractLink, h, habs]
    · intro habs
      simp [extractLink, h, habs]

/-- Witness for C6 at the concrete cells "[Cool Mod](./cool-mod)",
    "[Ext](https://example.com/x)" and "plain text". -/
theorem claimSix_witness :
    extractLink "[Cool Mod](./cool-mod)" =
      ⟨"Cool Mod", MOD_BASE_URL ++ "/" ++ "cool-mod", some "cool-mod"⟩ ∧
    extractLink "[Ext](https://example.com/x)" =
      ⟨"Ext", "https://example.com/x", none⟩ ∧
    extractLink "plain text" = ⟨"plain text", MOD_BASE_URL, none⟩ := by
  refine ⟨?_, ?_, ?_⟩
  · have h := ((claimSix_extractLink "[Cool Mod](./cool-mod)").2
      "Cool Mod".data "./cool-mod".data (by decide)).2 (by decide)
    simpa using h
  · have h := ((claimSix_extractLink "[Ext](https://example.com/x)").2
      "Ext".data "https://example.com/x".data (by decide)).1 (by decide)
    simpa using h
  · exact (claimSix_extractLink "plain text").1 (by decide)

/- ### Description normalization (sanitizeDescription) -/

/-- Models `text.replace(/\\n/g, " ")`: every literal backslash-n two
    character sequence becomes a space, scanning left to right without
    overlap. -/
def replaceEscapedNewlines : List Char → List Char
  | [] => []
  | '\\' :: 'n' :: rest => ' ' :: replaceEscapedNewlines rest
  | c :: rest => c :: replaceEscapedNewlines rest

mutual

/-- Models `text.replace(/\s+/g, " ")`: each maximal whitespace run becomes
    one space. -/
def collapseWs : List Char → List Char
  | [] => []
  | c :: rest =>
      if c.isWhitespace then ' ' :: skipWs rest else c :: collapseWs rest

def skipWs : List Char → List Char
  | [] => []
  | c :: rest => if c.isWhitespace then skipWs rest else c :: collapseWs rest

end

/-- sanitizeDescription of the script. -/
def sanitizeDescription (text : String) : String :=
  jsTrim (String.mk (collapseWs (replaceEscapedNewlines text.data)))

/- ### Row parser (parseMods) -/

/-- The draft record pushed by parseMods: the persisted Mod fields plus the
    transient sourcePath, the derived authorSlug, and the image field that
    addPreviewImages assigns later (absent, i.e. none, at parse time). -/
structure DraftMod where
  creator : String
  title : String
  description : String
  link : String
  compatibility : Compatibility
  lastChanged : Option String
  sourcePath : Option String
  authorSlug : Option String
  image : Option String := none
deriving DecidableEq

/-- Models `sourcePath?.split("/")?.[0]`. -/
def firstSegment (sp : String) : String :=
  match jsSplit sp (fun c => c == '/') with
  | [] => ""
  | h :: _ => h

/-- Models `line.split("|").slice(1, -1).map(cell => cell.trim())`. -/
def splitCells (line : String) : List String :=
  (((jsSplit line (fun c => c == '|')).drop 1).dropLast).map jsTrim

/-- Build the draft record pushed for one table row, from its five cells
    (with the creator already resolved through the carry-forward state). -/
def mkDraft (creator titleCell description compatibilityCell lastChanged : String) : DraftMod :=
  let lp := extractLink titleCell
  { creator := creator
    title := lp.title
    description := sanitizeDescription description
    link := lp.link
    compatibility := buildCompatibility compatibilityCell
    lastChanged := if lastChanged = "" then none else some lastChanged
    sourcePath := lp.sourcePath
    authorSlug := lp.sourcePath.map firstSegment
    image := none }

/-- The parseMods loop after the header has been seen (`inTable = true`),
    carrying the running `lastCreator` state: skip separator lines, stop at
    the first line whose trimmed text does not start with "|", skip lines
    with fewer than five cells, and push one draft per remaining row. -/
def parseLinesIn (lastCreator : String) : List String → List DraftMod
  | [] => []
  | line :: rest =>
      if strStartsWith (jsTrim line) "| ---" then parseLinesIn lastCreator rest
      else if strStartsWith (jsTrim line) "|" then
        match splitCells line with
        | c0 :: c1 :: c2 :: c3 :: c4 :: _ =>
            if c0 = "" then mkDraft lastCreator c1 c2 c3 c4 :: parseLinesIn lastCreator rest
            else mkDraft c0 c1 c2 c3 c4 :: parseLinesIn c0 rest
        | _ => parseLinesIn lastCreator rest
      else []

/-- The parseMods loop before the header has been seen (`inTable = false`):
    skip lines until one whose trimmed text starts with "| Creator". -/
def parseLinesPre : List String → List DraftMod
  | [] => []
  | line :: rest =>
      if strStartsWith (jsTrim line) "| Creator" then parseLinesIn "" rest
      else parseLinesPre rest

/-- parseMods of the script. -/
def parseMods (markdown : String) : List DraftMod :=
  parseLinesPre (splitLines markdown)

/- ### Characterization of the parsed table region -/

/-- The table body: the lines strictly after the first line whose trimmed
    text starts with "| Creator", up to (excluding) the first subsequent
    line whose trimmed text does not start with "|". -/
def tableBody (lines : List String) : List String :=
  ((lines.dropWhile (fun l => ! strStartsWith (jsTrim l) "| Creator")).drop 1).takeWhile
    (fun l => strStartsWith (jsTrim l) "|")

/-- The five cells of one processed row, in fixed column order. -/
structure RawRow where
  creator : String
  titleCell : String
  description : String
  compatCell : String
  lastChanged : String

/-- The five cells of a processed row, or none for a malformed row. -/
def cellsOf (l : String) : Option RawRow :=
  match splitCells l with
  | c0 :: c1 :: c2 :: c3 :: c4 :: _ => some ⟨c0, c1, c2, c3, c4⟩
  | _ => none

/-- The cell tuples of the rows parseMods processes within a line range:
    the lines that are not separator lines and split into at least five
    cells. -/
def rowsFromLines (lines : List String) : List RawRow :=
  (lines.filter (fun l => ! strStartsWith (jsTrim l) "| ---")).filterMap cellsOf

/-- The cell tuples of all rows parseMods processes. -/
def rowsOf (markdown : String) : List RawRow :=
  rowsFromLines (tableBody (splitLines markdown))

/-- Row-list form of the in-table loop, without the break logic. -/
def buildRows (lastCreator : String) : List RawRow → List DraftMod
  | [] => []
  | ⟨c0, c1, c2, c3, c4⟩ :: rs =>
      if c0 = "" then mkDraft lastCreator c1 c2 c3 c4 :: buildRows lastCreator rs
      else mkDraft c0 c1 c2 c3 c4 :: buildRows c0 rs

theorem prefOf_append_left (p q l : List Char) (h : prefOf (p ++ q) l = true) :
    prefOf p l = true := by
  induction p generalizing l with
  | nil => rfl
  | cons c cs ih =>
      cases l with
      | nil => simp [prefOf] at h
      | cons d ds =>
          simp only [List.cons_append, prefOf, Bool.and_eq_true] at h ⊢
          exact ⟨h.1, ih ds h.2⟩

/-- A separator line also counts as pipe-prefixed. -/
theorem sep_startsWith_pipe (l : String) (h : strStartsWith l "| ---" = true) :
    strStartsWith l "|" = true := by
  have h2 : prefOf ("|".data ++ " ---".data) l.data = true := h
  exact prefOf_append_left _ _ _ h2

/-- After the header, the break-based loop processes exactly the rows of the
    pipe-prefixed prefix of the remaining lines. -/
theorem parseLinesIn_eq_buildRows (c : String) (ls : List String) :
    parseLinesIn c ls =
      buildRows c
        (rowsFromLines (ls.takeWhile (fun l => strStartsWith (jsTrim l) "|"))) := by
  induction ls generalizing c with
  | nil => rfl
  | cons line rest ih =>
      cases hsep : strStartsWith (jsTrim line) "| ---" with
      | true =>
          have hp : strStartsWith (jsTrim line) "|" = true := sep_startsWith_pipe _ hsep
          simp only [parseLinesIn, hsep, if_true, List.takeWhile_cons, hp, rowsFromLines,
            List.filter_cons, Bool.not_true, Bool.false_eq_true, if_false]
          exact ih c
      | false =>
          cases hp : strStartsWith (jsTrim line) "|" with
          | false =>
              simp only [parseLinesIn, hsep, hp, Bool.false_eq_true, if_false,
                List.takeWhile_cons]
              rfl
          | true =>
              simp only [parseLinesIn, hsep, hp, Bool.false_eq_true, if_false, if_true,
                List.takeWhile_cons, rowsFromLines, List.filter_cons, Bool.not_false]
              cases h5 : splitCells line with
              | nil =>
                  simp only [cellsOf, h5, List.filterMap_cons]
                  exact ih c
              | cons c0 cs =>
                  match cs with
                  | c1 :: c2 :: c3 :: c4 :: tl =>
                      by_cases hc0 : c0 = ""
                      · simp only [cellsOf, h5, List.filterMap_cons, buildRows, hc0,
                          if_true, if_pos rfl]
                        exact congrArg _ (ih c)
                      · simp only [cellsOf, h5, List.filterMap_cons, buildRows,
                          if_neg hc0]
                        exact congrArg _ (ih c0)
                  | [] =>
                      simp only [cellsOf, h5, List.filterMap_cons]
                      exact ih c
                  | [c1] =>
                      simp only [cellsOf, h5, List.filterMap_cons]
                      exact ih c
                  | [c1, c2] =>
                      simp only [cellsOf, h5, List.filterMap_cons]
                      exact ih c
                  | [c1, c2, c3] =>
                      simp only [cellsOf, h5, List.filterMap_cons]
                      exact ih c

/-- Before the header, the loop just searches for the header line. -/
theorem parseLinesPre_eq (ls : List String) :
    parseLinesPre ls =
      parseLinesIn ""
        ((ls.dropWhile (fun l => ! strStartsWith (jsTrim l) "| Creator")).drop 1) := by
  induction ls with
  | nil => rfl
  | cons line rest ih =>
      cases hh : strStartsWith (jsTrim line) "| Creator" with
      | true =>
          simp [parseLinesPre, hh, List.dropWhile_cons]
      | false =>
          simpa [parseLinesPre, hh, List.dropWhile_cons] using ih

/-- parseMods equals processing exactly the rows of the table body. -/
theorem parseMods_eq_buildRows (markdown : String) :
    parseMods markdown = buildRows "" (rowsOf markdown) := by
  rw [parseMods, parseLinesPre_eq, parseLinesIn_eq_buildRows]
  rfl

/-- A table with a blank line between two data rows: the claim expects the
    second row still to be parsed. -/
def blankLineTable : String :=
  "| Creator | Mod | Description | Compat | Updated |\n| --- | --- | --- | --- | --- |\n| A | [First](./f) | d | V0 | 1 |\n\n| B | [Second](./s) | d | V0 | 2 |"

/-- C3 counterexample: an empty line between two pipe-prefixed data rows
    terminates the table, so the row after it is not parsed, contrary to
    the claim. -/
theorem claimThree_counterexample :
    (parseMods blankLineTable).map (fun m => m.title) = ["First"] ∧
    "Second" ∉ (parseMods blankLineTable).map (fun m => m.title) := by
  constructor
  · rfl
  · decide

/-- C3 (amended): the table body starts at the first line whose trimmed
    text begins with "| Creator" and ends at the first subsequent line whose
    trimmed text does not begin with "|" — including empty and
    all-whitespace lines, which therefore terminate the table; parseMods
    processes exactly the rows of that region (separator lines skipped,
    rows with fewer than five cells dropped, creator carry-forward from
    the initial empty state). -/
theorem claimThree_tableRegion (markdown : String) :
    parseMods markdown = buildRows "" (rowsOf markdown) :=
  parseMods_eq_buildRows markdown

/- ### C5: creator carry-forward -/

/-- The creator the claim predicts for row k: the creator cell of the
    nearest row at or before k with a non-empty creator cell, or the empty
    string when there is none. -/
def claimCreator (rows : List RawRow) (k : Nat) : String :=
  match ((rows.take (k + 1)).reverse).find? (fun r => r.creator != "") with
  | some r => r.creator
  | none => ""

theorem buildRows_length (c : String) (rows : List RawRow) :
    (buildRows c rows).length = rows.length := by
  induction rows generalizing c with
  | nil => rfl
  | cons r rs ih =>
      obtain ⟨c0, c1, c2, c3, c4⟩ := r
      by_cases hc0 : c0 = "" <;> simp [buildRows, hc0, ih]

theorem buildRows_creator (c : String) (rows : List RawRow) (k : Nat)
    (h : k < (buildRows c rows).length) :
    ((buildRows c rows)[k]).creator =
      (match ((rows.take (k + 1)).reverse).find? (fun r => r.creator != "") with
        | some r => r.creator
        | none => c) := by
  induction rows generalizing c k with
  | nil => simp [buildRows] at h
  | cons r rs ih =>
      obtain ⟨c0, c1, c2, c3, c4⟩ := r
      by_cases hc0 : c0 = ""
      · simp only [buildRows, if_pos hc0] at h ⊢
        cases k with
        | zero =>
            simp [mkDraft, List.find?, hc0]
        | succ n =>
            have h' : n < (buildRows c rs).length := by simpa using h
            rw [List.getElem_cons_succ, ih c n h']
            rw [List.take_succ_cons, List.reverse_cons, List.find?_append]
            simp [List.find?, hc0]
      · simp only [buildRows, if_neg hc0] at h ⊢
        have hp : ((⟨c0, c1, c2, c3, c4⟩ : RawRow).creator != "") = true := by
          simp [hc0]
        cases k with
        | zero =>
            simp [mkDraft, List.find?, hp]
        | succ n =>
            have h' : n < (buildRows c0 rs).length := by simpa using h
            rw [List.getElem_cons_succ, ih c0 n h']
            rw [List.take_succ_cons, List.reverse_cons, List.find?_append]
            cases hf : ((rs.take (n + 1)).reverse).find? (fun r => r.creator != "") with
            | none => simp [hf, List.find?, hp]
            | some y => simp [hf]

/-- C5: the creator of the k-th parsed record is the trimmed creator cell of
    the nearest row at or before k whose creator cell is non-empty, and the
    empty string when no such row exists; the carry-forward state starts
    empty at parser start. -/
theorem claimFive_creatorCarryForward (markdown : String) (k : Nat)
    (h : k < (parseMods markdown).length) :
    ((parseMods markdown)[k]).creator = claimCreator (rowsOf markdown) k := by
  have he := parseMods_eq_buildRows markdown
  have h2 : k < (buildRows "" (rowsOf markdown)).length := he ▸ h
  have key : ∀ (l1 l2 : List DraftMod), l1 = l2 →
      ∀ (h1 : k < l1.length) (h2 : k < l2.length), l1[k] = l2[k] := by
    intro l1 l2 heq h1 h2
    subst heq
    rfl
  rw [key _ _ he h h2, buildRows_creator "" (rowsOf markdown) k h2]
  rfl

/-- A table exercising the carry-forward: the second data row has a blank
    creator cell. -/
def carryTable : String :=
  "| Creator | Mod | Description | Compat | Updated |\n| --- | --- | --- | --- | --- |\n| Alice | [A](./a) | d | V0 | 1 |\n|  | [B](./b) | d | V0 | 2 |"

/-- Witness for C5: in carryTable, row 1 has a blank creator cell and
    inherits "Alice". -/
theorem claimFive_witness :
    ((parseMods carryTable).get ⟨1, by decide⟩).creator = claimCreator (rowsOf carryTable) 1 := by
  have h : 1 < (parseMods carryTable).length := by decide
  simpa using claimFive_creatorCarryForward carryTable 1 h

/- ### MD5 (crypto.createHash("md5").update(url).digest("hex"))

   Node's md5 hex digest, implemented from RFC 1321 over Nat arithmetic
   modulo 2^32; the input is the UTF-8 encoding of the string. -/

def M32 : Nat := 4294967296

def add32 (a b : Nat) : Nat := (a + b) % M32

/-- Bitwise complement of a 32-bit value (argument reduced first). -/
def not32 (a : Nat) : Nat := 4294967295 - a % M32

def rotl32 (x n : Nat) : Nat := ((x <<< n) ||| (x >>> (32 - n))) % M32

def mdF (b c d : Nat) : Nat := (b &&& c) ||| (not32 b &&& d)

def mdG (b c d : Nat) : Nat := (d &&& b) ||| (not32 d &&& c)

def mdH (b c d : Nat) : Nat := b ^^^ c ^^^ d

def mdI (b c d : Nat) : Nat := c ^^^ (b ||| not32 d)

/-- The 64 sine-derived constants of RFC 1321. -/
def mdK : List Nat :=
  [0xd76aa478, 0xe8c7b756, 0x242070db, 0xc1bdceee,
   0xf57c0faf, 0x4787c62a, 0xa8304613, 0xfd469501,
   0x698098d8, 0x8b44f7af, 0xffff5bb1, 0x895cd7be,
   0x6b901122, 0xfd987193, 0xa679438e, 0x49b40821,
   0xf61e2562, 0xc040b340, 0x265e5a51, 0xe9b6c7aa,
   0xd62f105d, 0x02441453, 0xd8a1e681, 0xe7d3fbc8,
   0x21e1cde6, 0xc33707d6, 0xf4d50d87, 0x455a14ed,
   0xa9e3e905, 0xfcefa3f8, 0x676f02d9, 0x8d2a4c8a,
   0xfffa3942, 0x8771f681, 0x6d9d6122, 0xfde5380c,
   0xa4beea44, 0x4bdecfa9, 0xf6bb4b60, 0xbebfbc70,
   0x289b7ec6, 0xeaa127fa, 0xd4ef3085, 0x04881d05,
   0xd9d4d039, 0xe6db99e5, 0x1fa27cf8, 0xc4ac5665,
   0xf4292244, 0x432aff97, 0xab9423a7, 0xfc93a039,
   0x655b59c3, 0x8f0ccc92, 0xffeff47d, 0x85845dd1,
   0x6fa87e4f, 0xfe2ce6e0, 0xa3014314, 0x4e0811a1,
   0xf7537e82, 0xbd3af235, 0x2ad7d2bb, 0xeb86d391]

/-- The per-operation left-rotation amounts of RFC 1321. -/
def mdS : List Nat :=
  [7, 12, 17, 22, 7, 12, 17, 22, 7, 12, 17, 22, 7, 12, 17, 22,
   5, 9, 14, 20, 5, 9, 14, 20, 5, 9, 14, 20, 5, 9, 14, 20,
   4, 11, 16, 23, 4, 11, 16, 23, 4, 11, 16, 23, 4, 11, 16, 23,
   6, 10, 15, 21, 6, 10, 15, 21, 6, 10, 15, 21, 6, 10, 15, 21]

/-- Little-endian 32-bit word g of a 64-byte block. -/
def wordAt (block : List Nat) (g : Nat) : Nat :=
  block.getD (4 * g) 0 + 256 * block.getD (4 * g + 1) 0 +
    65536 * block.getD (4 * g + 2) 0 + 16777216 * block.getD (4 * g + 3) 0

/-- One of the 64 operations of a block compression. -/
def mdStep (block : List Nat) (st : Nat × Nat × Nat × Nat) (i : Nat) :
    Nat × Nat × Nat × Nat :=
  let (a, b, c, d) := st
  let fg : Nat × Nat :=
    if i < 16 then (mdF b c d, i)
    else if i < 32 then (mdG b c d, (5 * i + 1) % 16)
    else if i < 48 then (mdH b c d, (3 * i + 5) % 16)
    else (mdI b c d, (7 * i) % 16)
  let f2 := (fg.1 + a + mdK.getD i 0 + wordAt block fg.2) % M32
  (d, add32 b (rotl32 f2 (mdS.getD i 0)), b, c)

/-- Compress one 64-byte block into the running state. -/
def compressBlock (st : Nat × Nat × Nat × Nat) (block : List Nat) :
    Nat × Nat × Nat × Nat :=
  let r := (List.range 64).foldl (mdStep block) st
  (add32 st.1 r.1, add32 st.2.1 r.2.1, add32 st.2.2.1 r.2.2.1, add32 st.2.2.2 r.2.2.2)

/-- RFC 1321 padding: a 0x80 byte, zeros to 56 mod 64, then the message bit
    length as a 64-bit little-endian quantity. -/
def padMsg (msg : List Nat) : List Nat :=
  let L := msg.length
  msg ++ (128 :: List.replicate ((119 - L % 64) % 64) 0) ++
    (List.range 8).map (fun i => (((8 * L) % 18446744073709551616) >>> (8 * i)) % 256)

def chunks64 : List Nat → List (List Nat)
  | [] => []
  | x :: xs => ((x :: xs).take 64) :: chunks64 ((x :: xs).drop 64)
termination_by l => l.length
decreasing_by
  simp only [List.length_drop, List.length_cons]
  omega

/-- Serialize one 32-bit word little-endian. -/
def wordLE (x : Nat) : List Nat :=
  [x % 256, x / 256 % 256, x / 65536 % 256, x / 16777216 % 256]

/-- The 16 digest bytes. -/
def md5bytes (msg : List Nat) : List Nat :=
  let st := (chunks64 (padMsg msg)).foldl compressBlock
    (0x67452301, 0xefcdab89, 0x98badcfe, 0x10325476)
  wordLE st.1 ++ wordLE st.2.1 ++ wordLE st.2.2.1 ++ wordLE st.2.2.2

/-- UTF-8 encoding, as Buffer.from and hash.update apply to a JS string. -/
def utf8Bytes : List Char → List Nat
  | [] => []
  | c :: cs =>
      let n := c.toNat
      (if n < 128 then [n]
       else if n < 2048 then [192 ||| (n >>> 6), 128 ||| (n &&& 63)]
       else if n < 65536 then
         [224 ||| (n >>> 12), 128 ||| ((n >>> 6) &&& 63), 128 ||| (n &&& 63)]
       else
         [240 ||| (n >>> 18), 128 ||| ((n >>> 12) &&& 63),
          128 ||| ((n >>> 6) &&& 63), 128 ||| (n &&& 63)]) ++ utf8Bytes cs

/-- The sixteen lowercase hex digit characters, "0123456789abcdef". -/
def hexChars : List Char := (List.range 16).map Nat.digitChar

def hexDigit (n : Nat) : Char := hexChars.getD n '0'

def byteHex (b : Nat) : List Char := [hexDigit (b / 16 % 16), hexDigit (b % 16)]

/-- The lowercase hex digest string. -/
def md5hex (s : String) : String :=
  String.mk (((md5bytes (utf8Bytes s.data)).map byteHex).flatten)

theorem md5bytes_length (msg : List Nat) : (md5bytes msg).length = 16 := by
  simp [md5bytes, wordLE]

theorem hexDigit_mem (n : Nat) : hexDigit n ∈ hexChars := by
  unfold hexDigit
  rcases Nat.lt_or_ge n 16 with h | h
  · interval_cases n <;> decide
  · rw [List.getD_eq_default]
    · decide
    · simpa [hexChars] using h

theorem flatten_byteHex_length (l : List Nat) :
    ((l.map byteHex).flatten).length = 2 * l.length := by
  induction l with
  | nil => rfl
  | cons b bs ih =>
      simp only [List.map_cons, List.flatten_cons, List.length_append, ih, byteHex,
        List.length_cons, List.length_nil, List.length_cons]
      omega

theorem flatten_byteHex_mem (l : List Nat) (c : Char)
    (h : c ∈ (l.map byteHex).flatten) : c ∈ hexChars := by
  induction l with
  | nil => simp at h
  | cons b bs ih =>
      simp only [List.map_cons, List.flatten_cons, List.mem_append] at h
      rcases h with h | h
      · simp only [byteHex, List.mem_cons, List.not_mem_nil, or_false] at h
        rcases h with h | h <;> exact h ▸ hexDigit_mem _
      · exact ih h

theorem md5hex_length (s : String) : (md5hex s).data.length = 32 := by
  show (((md5bytes (utf8Bytes s.data)).map byteHex).flatten).length = 32
  rw [flatten_byteHex_length, md5bytes_length]

theorem md5hex_hex (s : String) (c : Char) (h : c ∈ (md5hex s).data) : c ∈ hexChars :=
  flatten_byteHex_mem _ _ h

/- ### Image URL validation and resolution -/

/-- Models `url.trim().split(/\s+/)[0]`: the characters of the trimmed URL
    up to the first whitespace (dropping a trailing markdown image title). -/
def stripTitle (url : String) : String :=
  String.mk ((jsTrim url).data.takeWhile (fun c => ! c.isWhitespace))

/-- Models `s.split(/[?#]/)[0]`: the characters before the first "?" or "#". -/
def stripQueryFragment (s : String) : String :=
  String.mk (s.data.takeWhile (fun c => ! (c == '?' || c == '#')))

/-- isValidImage of the script: lowercase, strip query and fragment, check
    the recognized image extensions. -/
def isValidImage (url : String) : Bool :=
  let target := stripQueryFragment (strLower url)
  IMAGE_EXTENSIONS.any (fun ext => strEndsWith target ext)

def isSchemeChar (c : Char) : Bool :=
  c.isAlphanum || c == '+' || c == '-' || c == '.'

/-- Whether the string begins with an explicit URL scheme (an ASCII letter,
    then scheme characters, then ":"), as the WHATWG URL parser recognizes
    absolute inputs. -/
def hasScheme (s : String) : Bool :=
  match s.data with
  | [] => false
  | c :: rest => c.isAlpha && ((rest.dropWhile isSchemeChar).headD ' ' == ':')

/-- Scheme and authority of an absolute https URL (the part before the
    first "/" after "https://"). -/
def originOf (base : String) : String :=
  String.mk ("https://".data ++ ((base.data.drop 8).takeWhile (fun c => c != '/')))

/-- Models `new URL(relative, base).href` for the inputs that reach it in
    resolveImageUrl: `base` is an absolute https URL ending in "/", and
    `relative` does not begin with "//". An input carrying an explicit
    scheme is parsed as an absolute URL and returned unchanged (for an
    http(s)-schemed input the real parser may still resolve it against the
    base, but the result begins with the same scheme either way); an input
    beginning with "/" replaces the base's path; any other input is
    appended to the base. Dot-segment normalization and other href
    canonicalizations are omitted: they rewrite the path but never the
    scheme prefix, which is all the theorems below depend on. -/
def urlResolve (relative base : String) : String :=
  if hasScheme relative then relative
  else if strStartsWith relative "/" then originOf base ++ relative
  else base ++ relative

/-- resolveImageUrl of the script. -/
def resolveImageUrl (url relativePath : String) : Option String :=
  let cleaned := stripTitle url
  if ! isValidImage cleaned then none
  else if isHttpAbs cleaned then some cleaned
  else if strStartsWith cleaned "//" then some ("https:" ++ cleaned)
  else
    let relative := if strStartsWith cleaned "./" then String.mk (cleaned.data.drop 2) else cleaned
    some (urlResolve relative (RAW_BASE_URL ++ "/" ++ relativePath ++ "/"))

/- ### Scanning the README markdown for image references

   The two regexes are modelled as candidate enumerators returning the
   capture-group strings of every match in document order (matchAll
   semantics: after a match, scanning resumes at its end; after a failed
   start position, at the next character). The fuel argument is the input
   length plus one; every step consumes at least one character, so the fuel
   never runs out before the input does. -/

/-- Targets of `!\[[^\]]*\]\(([^)]+)\)` matches, in order. The character
    classes exclude exactly the closing delimiters, so each greedy run is
    forced and the match at a given start position is unique. -/
def mdTargets : Nat → List Char → List String
  | 0, _ => []
  | _ + 1, [] => []
  | fuel + 1, '!' :: '[' :: rest =>
      let alt := rest.takeWhile (fun c => c != ']')
      (match rest.drop alt.length with
        | ']' :: '(' :: rest2 =>
            let tgt := rest2.takeWhile (fun c => c != ')')
            (match tgt, rest2.drop tgt.length with
              | _ :: _, ')' :: rest3 => String.mk tgt :: mdTargets fuel rest3
              | _, _ => mdTargets fuel ('[' :: rest))
        | _ => mdTargets fuel ('[' :: rest))
  | fuel + 1, _ :: rest => mdTargets fuel rest

/-- Case-insensitive prefix test on character lists. -/
def prefOfCI : List Char → List Char → Bool
  | [], _ => true
  | _ :: _, [] => false
  | p :: ps, c :: cs => asciiLower p == asciiLower c && prefOfCI ps cs

/-- A double or single quote, as the class `["']` accepts. -/
def isQuote (c : Char) : Bool := c == '"' || c == Char.ofNat 39

/-- Match `["']([^"']+)["']` at the head of the list: an opening quote, a
    nonempty run free of either quote character (which may cross ">"), and
    a closing quote of either kind; returns the content and the remainder. -/
def tryQuoted (after : List Char) : Option (List Char × List Char) :=
  match after with
  | [] => none
  | q :: rest =>
      if isQuote q then
        let content := rest.takeWhile (fun c => ! isQuote c)
        (match content, rest.drop content.length with
          | _ :: _, q2 :: rest2 => if isQuote q2 then some (content, rest2) else none
          | _, _ => none)
      else none

/-- Match the trailing `[^>]*>`: skip to the first ">" and return the
    remainder after it, or none when no ">" remains. -/
def toGt (l : List Char) : Option (List Char) :=
  let run := l.takeWhile (fun c => c != '>')
  match l.drop run.length with
  | '>' :: rest => some rest
  | _ => none

/-- The suffixes of `tail` starting with case-insensitive "src=" at the
    first `limit` positions (the positions inside the leading non-">" run),
    each with the "src=" already dropped, in left-to-right order. -/
def srcSuffixes : Nat → List Char → List (List Char)
  | 0, _ => []
  | _ + 1, [] => []
  | limit + 1, l@(_ :: rest) =>
      (if prefOfCI "src=".data l then [l.drop 4] else []) ++ srcSuffixes limit rest

/-- Try the backtracking positions of `[^>]*src=` in the given order; the
    caller passes them rightmost first, matching the greedy run. -/
def tryAttempts : List (List Char) → Option (List Char × List Char)
  | [] => none
  | att :: more =>
      match tryQuoted att with
      | some (content, rest2) =>
          (match toGt rest2 with
            | some rest3 => some (content, rest3)
            | none => tryAttempts more)
      | none => tryAttempts more

/-- Targets of `<img[^>]*src=["']([^"']+)["'][^>]*>` matches (case
    insensitive), in order. The greedy `[^>]*` before `src=` makes the
    engine take the rightmost workable `src=` within the non-">" run. -/
def htmlTargets : Nat → List Char → List String
  | 0, _ => []
  | _ + 1, [] => []
  | fuel + 1, l@(_ :: rest) =>
      if prefOfCI "<img".data l then
        let tail := l.drop 4
        let run := tail.takeWhile (fun c => c != '>')
        (match tryAttempts ((srcSuffixes run.length tail).reverse) with
          | some (content, rest3) => String.mk content :: htmlTargets fuel rest3
          | none => htmlTargets fuel rest)
      else htmlTargets fuel rest

/-- extractFirstImage of the script: all markdown-image matches are tried
    first, then all HTML img matches; the first candidate that
    resolveImageUrl accepts wins. -/
def extractFirstImage (markdown relativePath : String) : Option String :=
  match (mdTargets (markdown.data.length + 1) markdown.data).findSome?
      (fun t => resolveImageUrl t relativePath) with
  | some img => some img
  | none =>
      (htmlTargets (markdown.data.length + 1) markdown.data).findSome?
        (fun t => resolveImageUrl t relativePath)

/- ### The effect environment

   fetch, sharp and the filesystem are modelled by pure functions. A fetch
   can yield a body, a non-success response (response.ok false), or a
   rejected promise (network error); the last is what a JavaScript `await
   fetch(...)` throws. The mod-images directory is the list of filenames it
   contains (ensureImageDir keeps it existing; creation is a no-op here).
   sharp transcoding plus the subsequent writeFile are one operation that
   either yields the frame bytes or throws (none). -/

inductive FetchResult
  | ok (body : String)
  | httpError
  | netError

inductive DlResult
  | ok (bytes : List Nat)
  | httpError
  | netError

structure Env where
  fetch : String → FetchResult
  download : String → DlResult
  transcode : List Nat → Option (List Nat)
  titleLe : String → String → Bool
  now : String

/-- fetchPreviewImage of the script: fetch the mod's own README and scan it;
    a non-success response returns undefined, and the try/catch turns a
    rejection into undefined as well. -/
def fetchPreviewImage (env : Env) (relativePath : String) : Option String :=
  match env.fetch (RAW_BASE_URL ++ "/" ++ relativePath ++ "/" ++ README_FILENAME) with
  | .ok markdown => extractFirstImage markdown relativePath
  | .httpError => none
  | .netError => none

/-- downloadBuffer of the script: a non-success response yields undefined,
    but a rejected fetch propagates (there is no try/catch around it). -/
def downloadBuffer (env : Env) (url : String) : Except Unit (Option (List Nat)) :=
  match env.download url with
  | .ok bytes => .ok (some bytes)
  | .httpError => .ok none
  | .netError => .error ()

/-- maybeMaterializeImage of the script, threading the mod-images directory
    contents. A non-gif URL is returned unchanged. For a gif: the target
    filename is the md5 hex of the URL plus ".jpg"; if the file already
    exists the local path is returned; otherwise the bytes are downloaded
    (undefined falls back to the URL, a rejection propagates) and
    transcoded (a sharp or writeFile error is caught and falls back to the
    URL); on success the file exists and the local path is returned. -/
def maybeMaterializeImage (env : Env) (fs : List String) (url : String) :
    Except Unit (String × List String) :=
  let normalized := stripQueryFragment (strLower url)
  if ! strEndsWith normalized ".gif" then .ok (url, fs)
  else
    let filename := md5hex url ++ ".jpg"
    if fs.contains filename then .ok ("/mod-images/" ++ filename, fs)
    else
      match downloadBuffer env url with
      | .error e => .error e
      | .ok none => .ok (url, fs)
      | .ok (some buffer) =>
          match env.transcode buffer with
          | none => .ok (url, fs)
          | some _frame => .ok ("/mod-images/" ++ filename, filename :: fs)

/- ### The persisted image cache -/

structure CacheEntry where
  image : Option String
  lastChanged : Option String
deriving DecidableEq

/-- The cache object, as an association list; updating a key prepends, and
    lookup takes the first hit, so the newest write wins (serialization
    order is not modelled, only the mapping). -/
def ImageCache : Type := List (String × CacheEntry)

def lookupCache (cache : ImageCache) (key : String) : Option CacheEntry :=
  match cache with
  | [] => none
  | (k, v) :: rest => if k = key then some v else lookupCache rest key

def cacheInsert (cache : ImageCache) (key : String) (v : CacheEntry) : ImageCache :=
  (key, v) :: cache

/-- isLocalImage of the script (on a present, truthy image string). -/
def isLocalPath (img : String) : Bool := strStartsWith img "/mod-images/"

/-- getLocalImagePath reduced to the filename inside the mod-images
    directory ("/mod-images/" is 12 characters). -/
def localFilename (img : String) : String := String.mk (img.data.drop 12)

/- ### Per-mod resolution (the body of the addPreviewImages batch lambda) -/

/-- Observable outcome of processing one draft: the draft's image after the
    step, the cache, directory and used-local-images set after the step,
    and whether the mod's README was fetched. -/
structure StepOut where
  image : Option String
  cache : ImageCache
  fs : List String
  used : List String
  fetched : Bool

/-- The fresh-resolution tail of the lambda: fetch the README, extract and
    materialize, record the outcome (an explicit null for no image) under
    the current change token, and assign the image when truthy. -/
def freshResolve (env : Env) (cache : ImageCache) (fs used : List String)
    (mod : DraftMod) (sp : String) : Except Unit StepOut :=
  match fetchPreviewImage env sp with
  | none => .ok ⟨mod.image, cacheInsert cache sp ⟨none, mod.lastChanged⟩, fs, used, true⟩
  | some image =>
      match maybeMaterializeImage env fs image with
      | .error e => .error e
      | .ok (finalImage, fs2) =>
          let cache2 := cacheInsert cache sp ⟨some finalImage, mod.lastChanged⟩
          if finalImage = "" then .ok ⟨mod.image, cache2, fs2, used, true⟩
          else
            .ok ⟨some finalImage, cache2, fs2,
              (if isLocalPath finalImage then finalImage :: used else used), true⟩

/-- The whole per-mod lambda: skip mods without a truthy sourcePath; on a
    cache entry whose stored token equals the draft's token, reuse a falsy
    image outcome directly, and reuse a truthy one when it is not a local
    path or its file still exists (recording local use); otherwise fall
    through to fresh resolution. -/
def processMod (env : Env) (cache : ImageCache) (fs used : List String)
    (mod : DraftMod) : Except Unit StepOut :=
  match mod.sourcePath with
  | none => .ok ⟨mod.image, cache, fs, used, false⟩
  | some sp =>
      if sp = "" then .ok ⟨mod.image, cache, fs, used, false⟩
      else
        match lookupCache cache sp with
        | none => freshResolve env cache fs used mod sp
        | some entry =>
            if entry.lastChanged = mod.lastChanged then
              match entry.image with
              | none => .ok ⟨mod.image, cache, fs, used, false⟩
              | some img =>
                  if img = "" then .ok ⟨mod.image, cache, fs, used, false⟩
                  else if ! isLocalPath img || fs.contains (localFilename img) then
                    .ok ⟨some img, cache, fs,
                      (if isLocalPath img then img :: used else used), false⟩
                  else freshResolve env cache fs used mod sp
            else freshResolve env cache fs used mod sp

/-- addPreviewImages of the script over a draft list. The source processes
    drafts in concurrent batches of eight with a barrier between batches;
    each draft is processed once and distinct drafts touch distinct record
    fields, so the sequential fold models the same per-draft outcomes and
    the same final used set and directory contents. The cacheHits,
    downloads and gifConversions counters are logging-only and omitted. -/
def addPreviewImages (env : Env) :
    List DraftMod → ImageCache → List String → List String →
      Except Unit (List DraftMod × ImageCache × List String × List String)
  | [], cache, fs, used => .ok ([], cache, fs, used)
  | m :: ms, cache, fs, used =>
      match processMod env cache fs used m with
      | .error e => .error e
      | .ok o =>
          match addPreviewImages env ms o.cache o.fs o.used with
          | .error e => .error e
          | .ok (ms2, cache2, fs2, used2) =>
              .ok ({ m with image := o.image } :: ms2, cache2, fs2, used2)

/- ### Snapshot assembly (main) -/

/-- The persisted mod object: the draft minus sourcePath (the rest spread
    keeps authorSlug and any assigned image), plus the derived repoPath and
    readmeUrl. -/
structure PersistedMod where
  creator : String
  title : String
  description : String
  link : String
  compatibility : Compatibility
  lastChanged : Option String
  authorSlug : Option String
  image : Option String
  repoPath : Option String
  readmeUrl : Option String
deriving DecidableEq

/-- The per-draft mapping in main: drop sourcePath, keep everything else,
    derive repoPath and readmeUrl when sourcePath is truthy. -/
def persistMod (d : DraftMod) : PersistedMod :=
  let spTruthy := match d.sourcePath with
    | some sp => if sp = "" then none else some sp
    | none => none
  { creator := d.creator
    title := d.title
    description := d.description
    link := d.link
    compatibility := d.compatibility
    lastChanged := d.lastChanged
    authorSlug := d.authorSlug
    image := d.image
    repoPath := spTruthy.map (fun sp => "printer_mods/" ++ sp)
    readmeUrl := spTruthy.map
      (fun sp => MOD_BLOB_BASE_URL ++ "/" ++ sp ++ "/" ++ README_FILENAME) }

/-- The JSON keys JSON.stringify emits for a persisted mod, in insertion
    order, properties with value undefined omitted. -/
def modKeys (m : PersistedMod) : List String :=
  ["creator", "title", "description", "link", "compatibility"] ++
    (match m.lastChanged with | some _ => ["lastChanged"] | none => []) ++
    (match m.authorSlug with | some _ => ["authorSlug"] | none => []) ++
    (match m.image with | some _ => ["image"] | none => []) ++
    (match m.repoPath with | some _ => ["repoPath"] | none => []) ++
    (match m.readmeUrl with | some _ => ["readmeUrl"] | none => [])

structure Snapshot where
  mods : List PersistedMod
  lastUpdated : String

/-- Insertion sort with the localeCompare comparator supplied by the
    environment, modelling drafts.sort((a, b) => a.title.localeCompare(b.title)). -/
def insertByTitle (le : String → String → Bool) (m : DraftMod) :
    List DraftMod → List DraftMod
  | [] => [m]
  | x :: xs => if le m.title x.title then m :: x :: xs else x :: insertByTitle le m xs

def sortByTitle (le : String → String → Bool) : List DraftMod → List DraftMod
  | [] => []
  | m :: ms => insertByTitle le m (sortByTitle le ms)

/-- cleanupUnusedLocalImages of the script: readdir the image directory and
    unlink every file whose "/mod-images/" path is not in the used set;
    the directory afterwards holds exactly the used files. -/
def cleanupUnusedLocalImages (used : List String) (fs : List String) : List String :=
  fs.filter (fun f => used.contains ("/mod-images/" ++ f))

/-- Everything main leaves behind on success. -/
structure RunOut where
  snapshot : Snapshot
  cache : ImageCache
  used : List String
  fsFinal : List String

/-- main of the script: fetch the table (a failure is fatal), parse and
    sort, resolve images against the loaded cache, write the snapshot,
    save the cache, clean up unused local images. On an error the run
    aborts with no snapshot written. -/
def runMain (env : Env) (cache0 : ImageCache) (fs0 : List String) :
    Except Unit RunOut :=
  match env.fetch README_URL with
  | .ok markdown =>
      let drafts := sortByTitle env.titleLe (parseMods markdown)
      (match addPreviewImages env drafts cache0 fs0 [] with
        | .error e => .error e
        | .ok (drafts2, cache2, fs2, used2) =>
            .ok { snapshot := { mods := drafts2.map persistMod, lastUpdated := env.now }
                  cache := cache2
                  used := used2
                  fsFinal := cleanupUnusedLocalImages used2 fs2 })
  | .httpError => .error ()
  | .netError => .error ()

/- ### C2 and C7: a rejected image download aborts the run -/

/-- A table with two well-formed rows, with source paths "a" and "b". -/
def twoRowTable : String :=
  "| Creator | Mod | Description | Compat | Updated |\n| --- | --- | --- | --- | --- |\n| Al | [M](./a) | d | V0 | 2024 |\n| Bee | [N](./b) | d | V0 | 2024 |"

/-- A README whose first image reference is a gif. -/
def gifReadme : String := "![x](./anim.gif)"

/-- An environment where mod "a" has a gif preview whose download rejects
    with a network error (and every other fetch yields a non-success
    response). -/
def netErrorEnv : Env :=
  { fetch := fun u =>
      if u == README_URL then .ok twoRowTable
      else if u == RAW_BASE_URL ++ "/" ++ "a" ++ "/" ++ README_FILENAME then .ok gifReadme
      else .httpError
    download := fun _ => .netError
    transcode := fun _ => some []
    titleLe := fun _ _ => true
    now := "2024-01-01T00:00:00.000Z" }

/-- C2: with a network error at the image-download step of a single mod,
    the whole run rejects and no snapshot is produced — the rejection of
    downloadBuffer is not caught anywhere, so it propagates through
    Promise.all, addPreviewImages and main. -/
theorem claimTwo_networkErrorAbortsRun :
    runMain netErrorEnv [] [] = Except.error () := rfl

/-- An environment whose image downloads reject with a network error. -/
def rejectingDownloadEnv : Env :=
  { fetch := fun _ => .httpError
    download := fun _ => .netError
    transcode := fun _ => some []
    titleLe := fun _ _ => true
    now := "" }

/-- C7: for a gif URL whose byte download rejects with a network error,
    maybeMaterializeImage propagates the rejection instead of returning the
    original URL. -/
theorem claimSeven_downloadRejectionPropagates :
    maybeMaterializeImage rejectingDownloadEnv [] "https://example.com/anim.gif" =
      Except.error () := rfl

/- ### C10: shape of freshly resolved image references -/

/-- A local path "/mod-images/<32 lowercase hex characters>.jpg". -/
def localHexJpg (s : String) : Bool :=
  isLocalPath s && strEndsWith s ".jpg" &&
    ((s.data.take (s.data.length - 4)).drop 12).length == 32 &&
    ((s.data.take (s.data.length - 4)).drop 12).all (fun c => hexChars.contains c)

/-- The shape the claim asserts for every freshly resolved reference: an
    absolute URL passing the /^https?:\/\//i test, or a content-addressed
    local image path. -/
def claimTenShape (s : String) : Bool := isHttpAbs s || localHexJpg s

/-- An inert environment: every fetch yields a non-success response. -/
def inertEnv : Env :=
  { fetch := fun _ => .httpError
    download := fun _ => .httpError
    transcode := fun _ => none
    titleLe := fun _ _ => true
    now := "" }

/-- C10 counterexample: the candidate "mailto:x.png" ends in a recognized
    image extension, carries an explicit scheme, and is passed through URL
    resolution verbatim, so the freshly resolved reference assigned to the
    mod is neither an http(s) URL nor a local image path. -/
theorem claimTen_counterexample :
    extractFirstImage "![a](mailto:x.png)" "sp" = some "mailto:x.png" ∧
    maybeMaterializeImage inertEnv [] "mailto:x.png" =
      Except.ok ("mailto:x.png", ([] : List String)) ∧
    claimTenShape "mailto:x.png" = false :=
  ⟨rfl, rfl, rfl⟩

theorem prefOf_map (f : Char → Char) (p l : List Char) (h : prefOf p l = true) :
    prefOf (p.map f) (l.map f) = true := by
  induction p generalizing l with
  | nil => rfl
  | cons c cs ih =>
      cases l with
      | nil => simp [prefOf] at h
      | cons d ds =>
          simp only [prefOf, Bool.and_eq_true, beq_iff_eq] at h
          simp only [List.map_cons, prefOf, Bool.and_eq_true, beq_iff_eq]
          exact ⟨by rw [h.1], ih ds h.2⟩

/-- A literal prefix is also a case-insensitive prefix. -/
theorem ciStartsWith_of_strStartsWith (s p : String) (h : strStartsWith s p = true) :
    ciStartsWith s p = true :=
  prefOf_map asciiLower p.data s.data h

theorem prefOf_self_append (p rest : List Char) : prefOf p (p ++ rest) = true := by
  induction p with
  | nil => rfl
  | cons c cs ih => simp [prefOf, ih]

theorem prefOf_append_both (p q l : List Char) :
    prefOf (p ++ q) (p ++ l) = prefOf q l := by
  induction p with
  | nil => rfl
  | cons c cs ih => simp [prefOf, ih]

theorem prefOf_append_of_prefOf (p l m : List Char) (h : prefOf p l = true) :
    prefOf p (l ++ m) = true := by
  induction p generalizing l with
  | nil => rfl
  | cons c cs ih =>
      cases l with
      | nil => simp [prefOf] at h
      | cons d ds =>
          simp only [prefOf, Bool.and_eq_true] at h
          simp only [List.cons_append, prefOf, Bool.and_eq_true]
          exact ⟨h.1, ih ds h.2⟩

/-- Every value urlResolve returns from an https base is an http(s) URL or
    carries an explicit scheme. -/
theorem urlResolve_shape (rel base : String)
    (hbase : strStartsWith base "https://" = true) :
    (isHttpAbs (urlResolve rel base) || hasScheme (urlResolve rel base)) = true := by
  unfold urlResolve
  split
  · rename_i hsch
    simp [hsch]
  · split
    · have hs : strStartsWith (originOf base ++ rel) "https://" = true := by
        show prefOf ("https://".data) ((originOf base ++ rel).data) = true
        rw [String.data_append]
        show prefOf ("https://".data)
          (("https://".data ++ ((base.data.drop 8).takeWhile (fun c => c != '/'))) ++
            rel.data) = true
        rw [List.append_assoc]
        exact prefOf_self_append _ _
      simp [isHttpAbs, ciStartsWith_of_strStartsWith _ _ hs]
    · have hs : strStartsWith (base ++ rel) "https://" = true := by
        show prefOf ("https://".data) ((base ++ rel).data) = true
        rw [String.data_append]
        exact prefOf_append_of_prefOf _ _ _ hbase
      simp [isHttpAbs, ciStartsWith_of_strStartsWith _ _ hs]

/-- Every value resolveImageUrl returns is an http(s) URL or carries an
    explicit scheme. -/
theorem resolveImageUrl_shape (u rp img : String)
    (h : resolveImageUrl u rp = some img) :
    (isHttpAbs img || hasScheme img) = true := by
  simp only [resolveImageUrl] at h
  split at h
  · simp at h
  · split at h
    · rename_i habs
      simp only [Option.some.injEq] at h
      subst h
      simp [habs]
    · split at h
      · rename_i hpr
        simp only [Option.some.injEq] at h
        subst h
        have hs : strStartsWith ("https:" ++ stripTitle u) "https://" = true := by
          show prefOf ("https://".data) (("https:" ++ stripTitle u).data) = true
          rw [String.data_append]
          have hsplit : ("https://".data) = ("https:".data) ++ ("//".data) := rfl
          rw [hsplit, prefOf_append_both]
          exact hpr
        simp [isHttpAbs, ciStartsWith_of_strStartsWith _ _ hs]
      · simp only [Option.some.injEq] at h
        subst h
        apply urlResolve_shape
        show prefOf ("https://".data) (((RAW_BASE_URL ++ "/" ++ rp) ++ "/").data) = true
        simp only [String.data_append]
        exact prefOf_append_of_prefOf _ _ _
          (prefOf_append_of_prefOf _ _ _ (prefOf_append_of_prefOf _ _ _ (by decide)))

/-- Every output of extractFirstImage comes from resolveImageUrl. -/
theorem extractFirstImage_sound (markdown rp img : String)
    (h : extractFirstImage markdown rp = some img) :
    ∃ t, resolveImageUrl t rp = some img := by
  unfold extractFirstImage at h
  split at h
  · rename_i img0 heq
    cases h
    obtain ⟨a, _, ha⟩ := List.exists_of_findSome?_eq_some heq
    exact ⟨a, ha⟩
  · obtain ⟨a, _, ha⟩ := List.exists_of_findSome?_eq_some h
    exact ⟨a, ha⟩

/-- maybeMaterializeImage returns the input URL or the content-addressed
    local path of its md5 hash. -/
theorem maybeMaterializeImage_cases (env : Env) (fs : List String) (url r : String)
    (fs2 : List String) (h : maybeMaterializeImage env fs url = .ok (r, fs2)) :
    r = url ∨ r = "/mod-images/" ++ (md5hex url ++ ".jpg") := by
  simp only [maybeMaterializeImage] at h
  split at h
  · simp only [Except.ok.injEq, Prod.mk.injEq] at h
    exact Or.inl h.1.symm
  · split at h
    · simp only [Except.ok.injEq, Prod.mk.injEq] at h
      exact Or.inr h.1.symm
    · split at h
      · simp at h
      · simp only [Except.ok.injEq, Prod.mk.injEq] at h
        exact Or.inl h.1.symm
      · split at h
        · simp only [Except.ok.injEq, Prod.mk.injEq] at h
          exact Or.inl h.1.symm
        · simp only [Except.ok.injEq, Prod.mk.injEq] at h
          exact Or.inr h.1.symm

/-- The content-addressed local path has the claimed shape. -/
theorem localHexJpg_md5 (u : String) :
    localHexJpg ("/mod-images/" ++ (md5hex u ++ ".jpg")) = true := by
  have hdata : ("/mod-images/" ++ (md5hex u ++ ".jpg")).data =
      "/mod-images/".data ++ ((md5hex u).data ++ ".jpg".data) := by
    simp [String.data_append]
  have hlen12 : ("/mod-images/".data).length = 12 := by decide
  have hlen4 : (".jpg".data).length = 4 := by decide
  have hlen32 : ((md5hex u).data).length = 32 := md5hex_length u
  have hlentot : ("/mod-images/" ++ (md5hex u ++ ".jpg")).data.length = 48 := by
    rw [hdata]
    simp only [List.length_append, hlen12, hlen4, hlen32]
  have hmid : (("/mod-images/" ++ (md5hex u ++ ".jpg")).data.take
      (("/mod-images/" ++ (md5hex u ++ ".jpg")).data.length - 4)).drop 12 =
      (md5hex u).data := by
    rw [hlentot, hdata, ← List.append_assoc]
    have h44 : 48 - 4 = ("/mod-images/".data ++ (md5hex u).data).length := by
      simp [hlen12, hlen32]
    rw [h44, List.take_left]
    have h12 : (12 : Nat) = ("/mod-images/".data).length := hlen12.symm
    rw [h12, List.drop_left]
  have hlocal : isLocalPath ("/mod-images/" ++ (md5hex u ++ ".jpg")) = true := by
    show prefOf ("/mod-images/".data) _ = true
    rw [hdata]
    exact prefOf_self_append _ _
  have hsuf : strEndsWith ("/mod-images/" ++ (md5hex u ++ ".jpg")) ".jpg" = true := by
    show prefOf (".jpg".data.reverse) _ = true
    rw [hdata, List.reverse_append, List.reverse_append]
    exact prefOf_append_of_prefOf _ _ _ (prefOf_self_append _ _)
  have hhex : ((md5hex u).data).all (fun c => hexChars.contains c) = true := by
    rw [List.all_eq_true]
    intro c hc
    simpa [List.contains, List.elem_iff] using md5hex_hex u c hc
  simp only [localHexJpg, hlocal, hsuf, hmid, hlen32, hhex, Bool.and_eq_true,
    beq_iff_eq, List.all_eq_true]
  and_intros <;>
    first
      | rfl
      | trivial

/-- C10 (amended): every freshly resolved image reference is an absolute
    URL passing the /^https?:\/\//i protocol test (protocol-relative inputs
    upgraded to https:, scheme-free relative paths resolved against the
    raw-content base joined with the sourcePath), or a local path
    "/mod-images/<32 lowercase hex>.jpg", or a candidate that itself bears
    an explicit URL scheme, which URL resolution passes through verbatim. -/
theorem claimTen_freshImageShape (markdown sp : String) (env : Env)
    (fs : List String) (img r : String) (fs2 : List String)
    (h1 : extractFirstImage markdown sp = some img)
    (h2 : maybeMaterializeImage env fs img = .ok (r, fs2)) :
    (claimTenShape r || hasScheme r) = true := by
  obtain ⟨t, ht⟩ := extractFirstImage_sound markdown sp img h1
  have hshape := resolveImageUrl_shape t sp img ht
  rcases maybeMaterializeImage_cases env fs img r fs2 h2 with hr | hr
  · subst hr
    rcases Bool.or_eq_true_iff.mp hshape with ha | ha <;>
      simp [claimTenShape, ha]
  · subst hr
    simp [claimTenShape, localHexJpg_md5]

/-- Witness for C10 (amended) at a concrete relative png candidate. -/
theorem claimTen_witness :
    (claimTenShape
        "https://raw.githubusercontent.com/VoronDesign/VoronUsers/master/printer_mods/sp/x.png" ||
      hasScheme
        "https://raw.githubusercontent.com/VoronDesign/VoronUsers/master/printer_mods/sp/x.png") =
      true :=
  claimTen_freshImageShape "![a](./x.png)" "sp" inertEnv [] _ _ [] rfl rfl

/- ### C1: cache reuse -/

/-- The image value a fresh resolution records in the cache: an explicit
    null when no image is found, the final image otherwise; none when the
    resolution raises. -/
def freshVal (env : Env) (fs : List String) (sp : String) : Option (Option String) :=
  match fetchPreviewImage env sp with
  | none => some none
  | some image =>
      match maybeMaterializeImage env fs image with
      | .error _ => none
      | .ok (fi, _) => some (some fi)

theorem freshResolve_spec (env : Env) (cache : ImageCache) (fs used : List String)
    (mod : DraftMod) (sp : String) (out : StepOut)
    (h : freshResolve env cache fs used mod sp = .ok out) :
    out.fetched = true ∧
      ∃ v, freshVal env fs sp = some v ∧
        lookupCache out.cache sp = some ⟨v, mod.lastChanged⟩ := by
  unfold freshResolve at h
  split at h
  · rename_i hfetch
    cases h
    exact ⟨rfl, none, by simp [freshVal, hfetch], by simp [lookupCache, cacheInsert]⟩
  · rename_i image hfetch
    split at h
    · simp at h
    · rename_i finalIm fs2 hmat
      split at h
      · cases h
        exact ⟨rfl, some finalIm, by simp [freshVal, hfetch, hmat],
          by simp [lookupCache, cacheInsert]⟩
      · cases h
        exact ⟨rfl, some finalIm, by simp [freshVal, hfetch, hmat],
          by simp [lookupCache, cacheInsert]⟩

/-- C1: with a cache entry present for the draft's (truthy) sourcePath, the
    entry is reused without fetching the README exactly when its stored
    change token equals the draft's current token and, in case it holds a
    truthy local image path, that file still exists in the image directory;
    and when the token matches but the local file is missing, the step
    fetches again and overwrites the entry with the freshly resolved
    outcome under the current change token. -/
theorem claimOne_cacheReuse (env : Env) (cache : ImageCache) (fs used : List String)
    (mod : DraftMod) (sp : String) (e : CacheEntry) (out : StepOut)
    (hsp : mod.sourcePath = some sp) (hne : sp ≠ "")
    (he : lookupCache cache sp = some e)
    (hok : processMod env cache fs used mod = .ok out) :
    (out.fetched = false ↔
      (e.lastChanged = mod.lastChanged ∧
        ∀ img, e.image = some img → img ≠ "" → isLocalPath img = true →
          fs.contains (localFilename img) = true)) ∧
    ((e.lastChanged = mod.lastChanged ∧
        ∃ img, e.image = some img ∧ img ≠ "" ∧ isLocalPath img = true ∧
          fs.contains (localFilename img) = false) →
      out.fetched = true ∧
        ∃ v, freshVal env fs sp = some v ∧
          lookupCache out.cache sp = some ⟨v, mod.lastChanged⟩) := by
  simp only [processMod, hsp] at hok
  rw [if_neg hne] at hok
  simp only [he] at hok
  by_cases htok : e.lastChanged = mod.lastChanged
  · rw [if_pos htok] at hok
    cases himg : e.image with
    | none =>
        simp only [himg] at hok
        cases hok
        refine ⟨⟨fun _ => ⟨htok, ?_⟩, fun _ => rfl⟩, ?_⟩
        · intro img hcontra
          simp at hcontra
        · rintro ⟨-, img, hcontra, -⟩
          simp at hcontra
    | some img0 =>
        simp only [himg] at hok
        by_cases h0 : img0 = ""
        · rw [if_pos h0] at hok
          cases hok
          refine ⟨⟨fun _ => ⟨htok, ?_⟩, fun _ => rfl⟩, ?_⟩
          · intro img heq hne2
            rw [Option.some.injEq] at heq
            exact absurd (heq ▸ h0) hne2
          · rintro ⟨-, img, heq, hne2, -⟩
            rw [Option.some.injEq] at heq
            exact absurd (heq ▸ h0) hne2
        · rw [if_neg h0] at hok
          by_cases hre : (! isLocalPath img0 || fs.contains (localFilename img0)) = true
          · rw [if_pos hre] at hok
            cases hok
            refine ⟨⟨fun _ => ⟨htok, ?_⟩, fun _ => rfl⟩, ?_⟩
            · intro img heq hne2 hloc
              rw [Option.some.injEq] at heq
              subst heq
              rcases Bool.or_eq_true_iff.mp hre with hl | hl
              · rw [hloc] at hl
                simp at hl
              · exact hl
            · rintro ⟨-, img, heq, hne2, hloc, hmiss⟩
              rw [Option.some.injEq] at heq
              subst heq
              rcases Bool.or_eq_true_iff.mp hre with hl | hl
              · rw [hloc] at hl
                simp at hl
              · rw [hmiss] at hl
                simp at hl
          · rw [if_neg hre] at hok
            have hspec := freshResolve_spec env cache fs used mod sp out hok
            refine ⟨?_, fun _ => hspec⟩
            rw [hspec.1]
            simp only [Bool.true_eq_false, false_iff]
            rintro ⟨-, hall⟩
            apply hre
            have hcont := hall img0 rfl h0
            by_cases hloc : isLocalPath img0 = true
            · have hc2 := hcont hloc
              simp only [hc2, Bool.or_true]
            · simp only [Bool.not_eq_true] at hloc
              simp only [hloc, Bool.not_false, Bool.true_or]
  · rw [if_neg htok] at hok
    have hspec := freshResolve_spec env cache fs used mod sp out hok
    constructor
    · rw [hspec.1]
      simp only [Bool.true_eq_false, false_iff]
      rintro ⟨hcontra, -⟩
      exact htok hcontra
    · rintro ⟨hcontra, -⟩
      exact absurd hcontra htok

/-- Concrete data for the C1 witness: a cached non-local image with a
    matching change token is reused without a fetch. -/
def c1cache : ImageCache := [("sp", ⟨some "https://example.com/i.png", some "d"⟩)]

def c1mod : DraftMod :=
  { creator := "A", title := "T", description := "", link := "",
    compatibility := DEFAULT_COMPATIBILITY, lastChanged := some "d",
    sourcePath := some "sp", authorSlug := some "sp", image := none }

def c1out : StepOut :=
  match processMod inertEnv c1cache [] [] c1mod with
  | .ok o => o
  | .error _ => ⟨none, [], [], [], true⟩

/-- Witness for C1 at the concrete reuse case. -/
theorem claimOne_witness :
    (c1out.fetched = false ↔
      ((some "d" : Option String) = c1mod.lastChanged ∧
        ∀ img, (some "https://example.com/i.png" : Option String) = some img →
          img ≠ "" → isLocalPath img = true →
          ([] : List String).contains (localFilename img) = true)) ∧
    (((some "d" : Option String) = c1mod.lastChanged ∧
        ∃ img, (some "https://example.com/i.png" : Option String) = some img ∧
          img ≠ "" ∧ isLocalPath img = true ∧
          ([] : List String).contains (localFilename img) = false) →
      c1out.fetched = true ∧
        ∃ v, freshVal inertEnv [] "sp" = some v ∧
          lookupCache c1out.cache "sp" = some ⟨v, c1mod.lastChanged⟩) :=
  claimOne_cacheReuse inertEnv c1cache [] [] c1mod "sp"
    ⟨some "https://example.com/i.png", some "d"⟩ c1out rfl (by decide) rfl rfl

/- ### C8: the cleanup invariant -/

theorem freshResolve_used (env : Env) (cache : ImageCache) (fs used : List String)
    (mod : DraftMod) (sp : String) (out : StepOut)
    (h : freshResolve env cache fs used mod sp = .ok out) :
    ∀ u ∈ out.used, u ∈ used ∨ out.image = some u := by
  unfold freshResolve at h
  split at h
  · cases h
    intro u hu
    exact Or.inl hu
  · split at h
    · simp at h
    · rename_i finalIm fs2 hmat
      split at h
      · cases h
        intro u hu
        exact Or.inl hu
      · cases h
        intro u hu
        split at hu
        · rcases List.mem_cons.mp hu with rfl | hm
          · exact Or.inr rfl
          · exact Or.inl hm
        · exact Or.inl hu

theorem processMod_used (env : Env) (cache : ImageCache) (fs used : List String)
    (mod : DraftMod) (out : StepOut)
    (h : processMod env cache fs used mod = .ok out) :
    ∀ u ∈ out.used, u ∈ used ∨ out.image = some u := by
  unfold processMod at h
  split at h
  · cases h
    intro u hu
    exact Or.inl hu
  · rename_i sp
    split at h
    · cases h
      intro u hu
      exact Or.inl hu
    · split at h
      · exact freshResolve_used _ _ _ _ _ _ _ h
      · rename_i entry hlook
        split at h
        · split at h
          · cases h
            intro u hu
            exact Or.inl hu
          · rename_i img himg
            split at h
            · cases h
              intro u hu
              exact Or.inl hu
            · split at h
              · cases h
                intro u hu
                split at hu
                · rcases List.mem_cons.mp hu with rfl | hm
                  · exact Or.inr rfl
                  · exact Or.inl hm
                · exact Or.inl hu
              · exact freshResolve_used _ _ _ _ _ _ _ h
        · exact freshResolve_used _ _ _ _ _ _ _ h

theorem addPreviewImages_used (env : Env) (ms : List DraftMod) :
    ∀ (cache : ImageCache) (fs used : List String) (ms2 : List DraftMod)
      (cache2 : ImageCache) (fs2 used2 : List String),
      addPreviewImages env ms cache fs used = .ok (ms2, cache2, fs2, used2) →
      ∀ u ∈ used2, u ∈ used ∨ ∃ m ∈ ms2, m.image = some u := by
  induction ms with
  | nil =>
      intro cache fs used ms2 c2 f2 u2 h u hu
      simp only [addPreviewImages, Except.ok.injEq, Prod.mk.injEq] at h
      obtain ⟨-, -, -, h4⟩ := h
      subst h4
      exact Or.inl hu
  | cons m ms ih =>
      intro cache fs used ms2 c2 f2 u2 h u hu
      simp only [addPreviewImages] at h
      split at h
      · simp at h
      · rename_i o ho
        split at h
        · simp at h
        · rename_i ms2t c2t f2t u2t hrec
          simp only [Except.ok.injEq, Prod.mk.injEq] at h
          obtain ⟨h1, -, -, h4⟩ := h
          subst h1
          subst h4
          rcases ih o.cache o.fs o.used ms2t c2t f2t u2t hrec u hu with hmem | ⟨m2, hm2, him⟩
          · rcases processMod_used env cache fs used m o ho u hmem with hmem2 | him2
            · exact Or.inl hmem2
            · exact Or.inr ⟨{ m with image := o.image }, List.mem_cons_self _ _, him2⟩
          · exact Or.inr ⟨m2, List.mem_cons_of_mem _ hm2, him⟩

/-- C8: after a successful run, every member of the used-local-images set
    is the image of some mod in the written snapshot, every file remaining
    in the image directory has its "/mod-images/" path in that set, and
    hence every remaining file is referenced by the image field of at least
    one snapshot mod. -/
theorem claimEight_cleanupInvariant (env : Env) (cache0 : ImageCache)
    (fs0 : List String) (out : RunOut) (hok : runMain env cache0 fs0 = .ok out) :
    (∀ u ∈ out.used, ∃ m ∈ out.snapshot.mods, m.image = some u) ∧
    (∀ f ∈ out.fsFinal, ("/mod-images/" ++ f) ∈ out.used) ∧
    (∀ f ∈ out.fsFinal, ∃ m ∈ out.snapshot.mods, m.image = some ("/mod-images/" ++ f)) := by
  simp only [runMain] at hok
  split at hok
  · split at hok
    · simp at hok
    · rename_i drafts2 cache2 fs2 used2 hadd
      simp only [Except.ok.injEq] at hok
      subst hok
      have h1 : ∀ u ∈ used2, ∃ pm ∈ drafts2.map persistMod, pm.image = some u := by
        intro u hu
        rcases addPreviewImages_used env _ cache0 fs0 [] drafts2 cache2 fs2 used2 hadd u hu
          with hc | ⟨m, hm, him⟩
        · simp at hc
        · exact ⟨persistMod m, List.mem_map_of_mem _ hm, him⟩
      refine ⟨h1, ?_, ?_⟩
      · intro f hf
        have hm := List.mem_filter.mp hf
        simpa [List.contains, List.elem_iff] using hm.2
      · intro f hf
        have hm := List.mem_filter.mp hf
        exact h1 _ (by simpa [List.contains, List.elem_iff] using hm.2)
  · simp at hok
  · simp at hok

/-- Concrete data for the C8 witness: one mod whose cached local image is
    reused, one orphan file that cleanup removes. -/
def c8md : String :=
  "| Creator | Mod | Description | Compat | Updated |\n| --- | --- | --- | --- | --- |\n| Al | [M](./sp) | d | V0 | 2024 |"

def c8cache : ImageCache := [("sp", ⟨some "/mod-images/h.jpg", some "2024"⟩)]

def c8env : Env :=
  { fetch := fun u => if u == README_URL then .ok c8md else .httpError
    download := fun _ => .httpError
    transcode := fun _ => none
    titleLe := fun _ _ => true
    now := "T" }

def c8out : RunOut :=
  match runMain c8env c8cache ["h.jpg", "orphan.jpg"] with
  | .ok o => o
  | .error _ => ⟨⟨[], ""⟩, [], [], []⟩

/-- Witness for C8: the surviving file "h.jpg" is referenced by a snapshot
    mod. -/
theorem claimEight_witness :
    ∃ m ∈ c8out.snapshot.mods, m.image = some "/mod-images/h.jpg" := by
  have hok : runMain c8env c8cache ["h.jpg", "orphan.jpg"] = .ok c8out := rfl
  exact (claimEight_cleanupInvariant c8env c8cache _ c8out hok).1
    "/mod-images/h.jpg" (by decide)

/- ### C9: shape of the persisted mod -/

/-- The fields the claim allows in a persisted mod. -/
def claimNineKeys : List String :=
  ["creator", "title", "description", "link", "compatibility", "lastChanged",
   "image", "repoPath", "readmeUrl"]

def c9md : String :=
  "| Creator | Mod | Description | Compat | Updated |\n| --- | --- | --- | --- | --- |\n| Al | [M](./cool-mod) | d | V0 | 2024-01-01 |"

def c9env : Env :=
  { fetch := fun u => if u == README_URL then .ok c9md else .httpError
    download := fun _ => .httpError
    transcode := fun _ => none
    titleLe := fun _ _ => true
    now := "T" }

/-- C9 counterexample: the persisted mod of a concrete run carries the
    field "authorSlug" (the first path segment of sourcePath), which is not
    among the fields the claim allows. -/
theorem claimNine_counterexample :
    (match runMain c9env [] [] with
      | .ok o => o.snapshot.mods.map modKeys
      | .error _ => []) =
      [["creator", "title", "description", "link", "compatibility", "lastChanged",
        "authorSlug", "repoPath", "readmeUrl"]] ∧
    "authorSlug" ∉ claimNineKeys :=
  ⟨rfl, by decide⟩

/-- C9 (amended): a persisted mod consists of the draft fields minus
    sourcePath — which keeps the derived authorSlug field (first
    "/"-separated segment of sourcePath) — plus the optional image assigned
    during resolution, and repoPath and readmeUrl derived from a present
    non-empty sourcePath; its serialized keys are the claimed ones plus
    authorSlug; and every snapshot mod is the persistMod image of some
    draft. -/
theorem claimNine_persistedShape :
    (∀ d : DraftMod,
      persistMod d =
        { creator := d.creator, title := d.title, description := d.description,
          link := d.link, compatibility := d.compatibility,
          lastChanged := d.lastChanged, authorSlug := d.authorSlug, image := d.image,
          repoPath :=
            (match d.sourcePath with
              | some sp => if sp = "" then none else some ("printer_mods/" ++ sp)
              | none => none),
          readmeUrl :=
            (match d.sourcePath with
              | some sp =>
                  if sp = "" then none
                  else some (MOD_BLOB_BASE_URL ++ "/" ++ sp ++ "/" ++ README_FILENAME)
              | none => none) } ∧
      (∀ k ∈ modKeys (persistMod d), k ∈ claimNineKeys ∨ k = "authorSlug")) ∧
    (∀ (env : Env) (c0 : ImageCache) (f0 : List String) (out : RunOut),
      runMain env c0 f0 = .ok out →
      ∀ m ∈ out.snapshot.mods, ∃ dm, m = persistMod dm) := by
  constructor
  · intro d
    constructor
    · obtain ⟨cr, ti, de, li, co, lc, spo, aso, imo⟩ := d
      cases spo with
      | none => rfl
      | some sp =>
          by_cases hsp : sp = "" <;> simp [persistMod, hsp]
    · intro k hk
      have base : ∀ x ∈ (["creator", "title", "description", "link",
          "compatibility"] : List String), x ∈ claimNineKeys ∨ x = "authorSlug" := by
        decide
      simp only [modKeys, List.mem_append] at hk
      rcases hk with ((((hk | hk) | hk) | hk) | hk) | hk
      · exact base k hk
      · revert hk
        cases (persistMod d).lastChanged <;> intro hk <;> simp at hk
        subst hk
        exact Or.inl (by decide)
      · revert hk
        cases (persistMod d).authorSlug <;> intro hk <;> simp at hk
        subst hk
        exact Or.inr rfl
      · revert hk
        cases (persistMod d).image <;> intro hk <;> simp at hk
        subst hk
        exact Or.inl (by decide)
      · revert hk
        cases (persistMod d).repoPath <;> intro hk <;> simp at hk
        subst hk
        exact Or.inl (by decide)
      · revert hk
        cases (persistMod d).readmeUrl <;> intro hk <;> simp at hk
        subst hk
        exact Or.inl (by decide)
  · intro env c0 f0 out hok
    simp only [runMain] at hok
    split at hok
    · split at hok
      · simp at hok
      · simp only [Except.ok.injEq] at hok
        subst hok
        intro m hm
        simp only [List.mem_map] at hm
        obtain ⟨dm, -, hdm⟩ := hm
        exact ⟨dm, hdm.symm⟩
    · simp at hok
    · simp at hok

def defaultPersisted : PersistedMod :=
  ⟨"", "", "", "", DEFAULT_COMPATIBILITY, none, none, none, none, none⟩

def c9out : RunOut :=
  match runMain c9env [] [] with
  | .ok o => o
  | .error _ => ⟨⟨[], ""⟩, [], [], []⟩

/-- Witness for C9 (amended): the first snapshot mod of a concrete run is
    the persistMod image of a draft. -/
theorem claimNine_witness :
    ∃ dm, c9out.snapshot.mods.headD defaultPersisted = persistMod dm := by
  have hok : runMain c9env [] [] = .ok c9out := rfl
  have hmem : c9out.snapshot.mods.headD defaultPersisted ∈ c9out.snapshot.mods := by
    decide
  exact claimNine_persistedShape.2 c9env [] [] c9out hok _ hmem

end VoronHub
